import Mathlib

/-!
Verification of the RAG-Chatbot repository core: a shallow embedding of the
vector service (chunking, embedding cache, dual-backend storage, local
search), the PDF extraction orchestrator's decision logic, and the
door-schedule area computation, with theorems checking the specification's
claims against the embedded code.

Conventions of the embedding:
* Python strings are Lean `String`s; character-level logic works on
  `List Char`.  Python whitespace is modelled as the common ASCII set
  (space, tab, newline, carriage return, vertical tab, form feed).
* Machine floats are modelled as exact rationals `ℚ`; comments note the
  places where the float/rational distinction could matter.
* External effects (the OpenCLIP encoder, Pinecone, the filesystem clock,
  uuid generation, OCR engines) are passed in as explicit parameters or
  environment records; fallible remote calls return `Except`.
-/

namespace RAG

/-! ## Python string primitives -/

/-- ASCII whitespace as recognised by Python's `str.split()` / `str.strip()`
(space, tab, newline, carriage return, vertical tab, form feed). -/
def pyIsSpace (c : Char) : Bool :=
  c = ' ' || c = '\t' || c = '\n' || c = '\r' || c = Char.ofNat 11 || c = Char.ofNat 12

/-- `str.strip()` on a character list: drop leading and trailing whitespace. -/
def pyStripL (cs : List Char) : List Char :=
  ((cs.dropWhile pyIsSpace).reverse.dropWhile pyIsSpace).reverse

/-- Python `str.strip()`. -/
def pyStrip (s : String) : String := String.mk (pyStripL s.toList)

/-- Worker for `str.split()` with no separator: split on runs of whitespace,
discarding empty fields.  `acc` is the current word, reversed. -/
def pySplitL : List Char → List Char → List (List Char)
  | [], acc => if acc = [] then [] else [acc.reverse]
  | c :: cs, acc =>
    if pyIsSpace c then
      if acc = [] then pySplitL cs [] else acc.reverse :: pySplitL cs []
    else pySplitL cs (c :: acc)

/-- Python `text.split()` (no separator argument). -/
def pySplit (s : String) : List String := (pySplitL s.toList []).map String.mk

/-- `" ".join(words)` at the character level. -/
def joinWordsL : List (List Char) → List Char
  | [] => []
  | [w] => w
  | w :: ws => w ++ ' ' :: joinWordsL ws

/-- `" ".join(words)` on strings. -/
def joinWords (ws : List String) : String := String.mk (joinWordsL (ws.map String.toList))

/-! ## Chunker (`VectorService.split_text_into_chunks`) -/

/-- The index list of Python's `range(0, n, step)` for a positive step:
`[0, step, 2*step, ...)` below `n`. -/
def posRangeBy (n step : Nat) : List Nat :=
  (List.range ((n + step - 1) / step)).map (· * step)

/-- `VectorService.split_text_into_chunks`.  Mirrors the source:
empty / whitespace-only text yields `[]`; a text of at most `chunk_size`
words is returned verbatim as a single chunk; otherwise the word list is
windowed by `range(0, len(words), chunk_size - overlap)`.  The Python
subtraction `chunk_size - overlap` is an `int`: when it is negative the
range is empty (so the function silently returns `[]`); when it is zero
Python raises `ValueError` — that case is recorded separately by
`split_text_raises` and rendered here as `[]` on an unreachable-by-callers
branch. -/
def split_text_into_chunks (text : String) (chunk_size : Nat := 300) (overlap : Nat := 50) :
    List String :=
  if pyStrip text = "" then []
  else
    let words := pySplit text
    if words.length ≤ chunk_size then [text]
    else if (chunk_size : Int) - (overlap : Int) ≤ 0 then []
    else
      let step := chunk_size - overlap
      (posRangeBy words.length step).filterMap (fun i =>
        let chunk := joinWords ((words.drop i).take chunk_size)
        if pyStrip chunk = "" then none else some (pyStrip chunk))

/-- Whether the Python call `split_text_into_chunks(text, chunk_size, overlap)`
raises: it does exactly when the zero-step `range(0, n, 0)` is reached,
i.e. past both early returns with `chunk_size - overlap == 0`. -/
def split_text_raises (text : String) (chunk_size overlap : Nat) : Bool :=
  (pyStrip text != "") && (chunk_size < (pySplit text).length) && (chunk_size == overlap)

/-- C10: a non-whitespace text of at most `chunk_size` whitespace-split words
is returned as exactly one chunk, and that chunk is the original text
verbatim — not re-joined from its words. -/
theorem C10_single_chunk_verbatim (text : String) (chunk_size overlap : Nat)
    (hne : pyStrip text ≠ "") (hlen : (pySplit text).length ≤ chunk_size) :
    split_text_into_chunks text chunk_size overlap = [text] := by
  unfold split_text_into_chunks
  simp [hne, hlen]

/-- C10 witness: the two-word text "hello  world\n" (with its internal double
space and trailing newline) is returned verbatim as the single chunk. -/
theorem C10_witness :
    pyStrip "hello  world\n" ≠ "" ∧ (pySplit "hello  world\n").length ≤ 300 ∧
      split_text_into_chunks "hello  world\n" 300 50 = ["hello  world\n"] :=
  ⟨by decide, by decide, C10_single_chunk_verbatim _ 300 50 (by decide) (by decide)⟩

/-- C5 counterexample: the invalid configuration `overlap > chunk_size` is
accepted silently at call time and yields an empty chunk list, and the
configuration `overlap = chunk_size` raises `ValueError` at call time —
so there is no construction-time rejection of `overlap ≥ chunk_size`. -/
theorem C5_counterexample :
    split_text_into_chunks "a b c" 2 3 = [] ∧ split_text_raises "a b c" 2 2 = true := by
  constructor
  · decide
  · decide

/-- C5 (amended): the chunker performs no configuration validation at
construction time.  For a text longer than `chunk_size` words, a
configuration with `overlap > chunk_size` is silently accepted at call time
and yields an empty chunk list without raising (Python's negative-step
`range` is empty, so no zero-progress loop occurs), while
`overlap = chunk_size` raises `ValueError` at call time. -/
theorem C5_no_construction_validation (text : String) (cs ov : Nat)
    (hstrip : pyStrip text ≠ "") (hwords : cs < (pySplit text).length) :
    (cs < ov → split_text_into_chunks text cs ov = [] ∧ split_text_raises text cs ov = false)
      ∧ (cs = ov → split_text_raises text cs ov = true) := by
  constructor
  · intro hlt
    constructor
    · unfold split_text_into_chunks
      have h1 : ¬ (pySplit text).length ≤ cs := by omega
      have h2 : (cs : Int) - (ov : Int) ≤ 0 := by omega
      simp [hstrip, h1, h2]
    · unfold split_text_raises
      have : cs ≠ ov := by omega
      simp [this]
  · intro heq
    unfold split_text_raises
    simp [hstrip, hwords, heq, heq ▸ hwords]

/-- C5 witness: concrete instantiation of `C5_no_construction_validation`
at the three-word text "a b c" with `chunk_size = 2`, `overlap = 3`. -/
theorem C5_witness :
    pyStrip "a b c" ≠ "" ∧ 2 < (pySplit "a b c").length ∧
      (2 < 3 → split_text_into_chunks "a b c" 2 3 = [] ∧ split_text_raises "a b c" 2 3 = false) :=
  ⟨by decide, by decide, (C5_no_construction_validation "a b c" 2 3 (by decide) (by decide)).1⟩

/-! ## Embedder (`VectorService.create_embeddings`)

The OpenCLIP backend is abstracted as a deterministic `encode : String → Emb`
(the spec assumes the model deterministic for identical input); embeddings
are exact rationals.  The process-wide `embedding_cache` dict is an
association list whose lookup takes the most recent binding. -/

/-- An embedding vector. -/
abbrev Emb := List ℚ

/-- The `embedding_cache` dict: most recent binding first. -/
abbrev Cache := List (String × Emb)

/-- Dict lookup `embedding_cache[text]` (with the most recent assignment
shadowing older ones). -/
def lookupCache (cache : Cache) (t : String) : Option Emb :=
  (cache.find? (fun p => p.1 == t)).map (·.2)

/-- First loop of `create_embeddings`: for `i, text in enumerate(texts)`,
collect the cached embeddings (in input order), the indices of the cache
hits (`cache_indices`), and the cache-miss texts (`texts_to_encode`). -/
def scanCache (cache : Cache) : List String → Nat → List Emb × List Nat × List String
  | [], _ => ([], [], [])
  | t :: ts, i =>
    let r := scanCache cache ts (i + 1)
    match lookupCache cache t with
    | some e => (e :: r.1, i :: r.2.1, r.2.2)
    | none => (r.1, r.2.1, t :: r.2.2)

/-- The batched encoding loop `for i in range(0, len(texts_to_encode), 32)`:
the slice `texts_to_encode[i:i+32]` is encoded and appended per step. -/
def encodeBatches (encode : String → Emb) (ts : List String) : List Emb :=
  (posRangeBy ts.length 32).flatMap (fun i => ((ts.drop i).take 32).map encode)

/-- The re-merge loop of `create_embeddings`: for `i, text in enumerate(texts)`,
`if i not in cache_indices: embeddings.insert(i, new_embeddings[text_idx]);
text_idx += 1`.  The state is `(embeddings, text_idx)`. -/
def mergeLoop (cacheIndices : List Nat) (newEmbs : List Emb) :
    List String → Nat → List Emb × Nat → List Emb × Nat
  | [], _, st => st
  | _ :: ts, i, st =>
    if i ∈ cacheIndices then mergeLoop cacheIndices newEmbs ts (i + 1) st
    else mergeLoop cacheIndices newEmbs ts (i + 1)
      (st.1.insertIdx i (newEmbs.getD st.2 []), st.2 + 1)

/-- Result of `create_embeddings`: the returned embeddings, the updated
process-wide cache, and the texts actually sent to the encoding backend. -/
structure EmbedOut where
  embeddings : List Emb
  cache : Cache
  sent : List String
deriving DecidableEq, Repr

/-- `VectorService.create_embeddings`: consult the cache per input, batch the
misses through the backend, write the new embeddings back into the cache,
then re-merge the new embeddings into the output at their input positions. -/
def create_embeddings (encode : String → Emb) (cache : Cache) (texts : List String) : EmbedOut :=
  if texts = [] then ⟨[], cache, []⟩
  else
    let scan := scanCache cache texts 0
    if scan.2.2 = [] then ⟨scan.1, cache, []⟩
    else
      let newEmbs := encodeBatches encode scan.2.2
      let cache2 := (scan.2.2.zip newEmbs).foldl (fun c p => (p.1, p.2) :: c) cache
      ⟨(mergeLoop scan.2.1 newEmbs texts 0 (scan.1, 0)).1, cache2, scan.2.2⟩

/-- The embedding an input should receive: its cached vector when present,
otherwise a freshly encoded one. -/
def resolveEmb (cache : Cache) (encode : String → Emb) (t : String) : Emb :=
  (lookupCache cache t).getD (encode t)

theorem scanCache_fst (cache : Cache) :
    ∀ (ts : List String) (i : Nat), (scanCache cache ts i).1 = ts.filterMap (lookupCache cache) := by
  intro ts
  induction ts with
  | nil => intro i; simp [scanCache]
  | cons t ts ih =>
    intro i
    simp only [scanCache, List.filterMap_cons]
    cases h : lookupCache cache t with
    | some e => simp [h, ih]
    | none => simp [h, ih]

theorem scanCache_misses (cache : Cache) :
    ∀ (ts : List String) (i : Nat),
      (scanCache cache ts i).2.2 = ts.filter (fun t => (lookupCache cache t).isNone) := by
  intro ts
  induction ts with
  | nil => intro i; simp [scanCache]
  | cons t ts ih =>
    intro i
    simp only [scanCache, List.filter_cons]
    cases h : lookupCache cache t with
    | some e => simp [h, ih]
    | none => simp [h, ih]

theorem scanCache_ci_lb (cache : Cache) :
    ∀ (ts : List String) (i j : Nat), j ∈ (scanCache cache ts i).2.1 → i ≤ j := by
  intro ts
  induction ts with
  | nil => intro i j h; simp [scanCache] at h
  | cons t ts ih =>
    intro i j h
    simp only [scanCache] at h
    cases hl : lookupCache cache t with
    | some e =>
      rw [hl] at h
      simp only [List.mem_cons] at h
      rcases h with h | h
      · omega
      · have := ih (i + 1) j h; omega
    | none =>
      rw [hl] at h
      have := ih (i + 1) j h; omega

theorem insertIdx_append_length {α : Type} (P S : List α) (x : α) :
    (P ++ S).insertIdx P.length x = P ++ x :: S := by
  induction P with
  | nil => simp
  | cons p P ih => simpa [List.insertIdx_succ_cons] using ih

theorem getD_of_drop_cons {α : Type} :
    ∀ {l : List α} {n : Nat} {a : α} {r : List α}, l.drop n = a :: r → ∀ d, l.getD n d = a := by
  intro l
  induction l with
  | nil => intro n a r h d; simp at h
  | cons c l ih =>
    intro n a r h d
    cases n with
    | zero => simp at h; simp [h.1]
    | succ n => exact ih (by simpa using h) d

theorem drop_succ_of_drop_cons {α : Type} :
    ∀ {l : List α} {n : Nat} {a : α} {r : List α}, l.drop n = a :: r → l.drop (n + 1) = r := by
  intro l
  induction l with
  | nil => intro n a r h; simp at h
  | cons c l ih =>
    intro n a r h
    cases n with
    | zero => simp at h ⊢; exact h.2
    | succ n => exact ih (by simpa using h)

theorem mergeLoop_spec (cache : Cache) (encode : String → Emb) :
    ∀ (ts : List String) (ciPre : List Nat) (P : List Emb) (ctr : Nat) (newEmbs : List Emb),
      (∀ j ∈ ciPre, j < P.length) →
      newEmbs.drop ctr = (ts.filter (fun t => (lookupCache cache t).isNone)).map encode →
      mergeLoop (ciPre ++ (scanCache cache ts P.length).2.1) newEmbs ts P.length
          (P ++ ts.filterMap (lookupCache cache), ctr)
        = (P ++ ts.map (resolveEmb cache encode),
           ctr + (ts.filter (fun t => (lookupCache cache t).isNone)).length) := by
  intro ts
  induction ts with
  | nil => intro ciPre P ctr newEmbs hpre hdrop; simp [scanCache, mergeLoop]
  | cons t ts ih =>
    intro ciPre P ctr newEmbs hpre hdrop
    cases hl : lookupCache cache t with
    | some e =>
      have hscan : (scanCache cache (t :: ts) P.length).2.1
          = P.length :: (scanCache cache ts (P.length + 1)).2.1 := by
        simp [scanCache, hl]
      have hmem : P.length ∈ ciPre ++ (scanCache cache (t :: ts) P.length).2.1 := by
        rw [hscan]; simp
      have hfm : (t :: ts).filterMap (lookupCache cache)
          = e :: ts.filterMap (lookupCache cache) := by
        simp [List.filterMap_cons, hl]
      have hfilter : (t :: ts).filter (fun t => (lookupCache cache t).isNone)
          = ts.filter (fun t => (lookupCache cache t).isNone) := by
        simp [List.filter_cons, hl]
      rw [hfm]
      simp only [mergeLoop, if_pos hmem]
      have hP1 : P ++ e :: ts.filterMap (lookupCache cache)
          = (P ++ [e]) ++ ts.filterMap (lookupCache cache) := by simp
      have hlen : P.length + 1 = (P ++ [e]).length := by simp
      have hci : ciPre ++ (scanCache cache (t :: ts) P.length).2.1
          = (ciPre ++ [P.length]) ++ (scanCache cache ts ((P ++ [e]).length)).2.1 := by
        rw [hscan, ← hlen]; simp
      rw [hP1, hci, hlen]
      rw [ih (ciPre ++ [P.length]) (P ++ [e]) ctr newEmbs
          (by intro j hj; simp at hj; rcases hj with hj | hj
              · have := hpre j hj; simp; omega
              · simp [hj])
          (by rw [hdrop, hfilter])]
      have hres : resolveEmb cache encode t = e := by simp [resolveEmb, hl]
      rw [hfilter]
      simp [hres]
    | none =>
      have hscan : (scanCache cache (t :: ts) P.length).2.1
          = (scanCache cache ts (P.length + 1)).2.1 := by
        simp [scanCache, hl]
      have hmem : P.length ∉ ciPre ++ (scanCache cache (t :: ts) P.length).2.1 := by
        rw [hscan]
        intro hmem
        rcases List.mem_append.mp hmem with h | h
        · exact absurd (hpre _ h) (lt_irrefl _)
        · have := scanCache_ci_lb cache ts (P.length + 1) _ h; omega
      have hfm : (t :: ts).filterMap (lookupCache cache)
          = ts.filterMap (lookupCache cache) := by
        simp [List.filterMap_cons, hl]
      have hfilter : (t :: ts).filter (fun t => (lookupCache cache t).isNone)
          = t :: ts.filter (fun t => (lookupCache cache t).isNone) := by
        simp [List.filter_cons, hl]
      have hdrop2 : newEmbs.drop ctr
          = encode t :: (ts.filter (fun t => (lookupCache cache t).isNone)).map encode := by
        rw [hdrop, hfilter]; simp
      have hget : newEmbs.getD ctr [] = encode t := getD_of_drop_cons hdrop2 []
      rw [hfm]
      simp only [mergeLoop, if_neg hmem]
      rw [hget, insertIdx_append_length]
      have hP1 : P ++ encode t :: ts.filterMap (lookupCache cache)
          = (P ++ [encode t]) ++ ts.filterMap (lookupCache cache) := by simp
      have hlen : P.length + 1 = (P ++ [encode t]).length := by simp
      have hci : ciPre ++ (scanCache cache (t :: ts) P.length).2.1
          = ciPre ++ (scanCache cache ts ((P ++ [encode t]).length)).2.1 := by
        rw [hscan, ← hlen]
      rw [hP1, hci, hlen]
      rw [ih ciPre (P ++ [encode t]) (ctr + 1) newEmbs
          (by intro j hj; have := hpre j hj; simp; omega)
          (drop_succ_of_drop_cons hdrop2)]
      have hres : resolveEmb cache encode t = encode t := by simp [resolveEmb, hl]
      rw [hfilter]
      simp [hres]
      omega

theorem posRangeBy_zero (k : Nat) (hk : 0 < k) : posRangeBy 0 k = [] := by
  unfold posRangeBy
  have : (0 + k - 1) / k = 0 := Nat.div_eq_of_lt (by omega)
  rw [this]
  simp

theorem posRangeBy_pos (n k : Nat) (hk : 0 < k) (hn : 0 < n) :
    posRangeBy n k = 0 :: (posRangeBy (n - k) k).map (· + k) := by
  unfold posRangeBy
  have h1 : (n + k - 1) / k = (n - 1) / k + 1 := by
    have : n + k - 1 = (n - 1) + k := by omega
    rw [this, Nat.add_div_right _ hk]
  have h2 : (n - k + k - 1) / k = (n - 1) / k := by
    by_cases hnk : k ≤ n
    · have : n - k + k - 1 = n - 1 := by omega
      rw [this]
    · have h3 : n - k = 0 := by omega
      rw [h3]
      rw [Nat.div_eq_of_lt (by omega), Nat.div_eq_of_lt (by omega)]
  rw [h1, h2, List.range_succ_eq_map]
  simp only [List.map_cons, List.map_map, Nat.zero_mul]
  congr 1
  refine List.map_congr_left ?_
  intro a _
  simp [Function.comp, Nat.succ_mul]

theorem flatMap_chunks_eq {α : Type} (k : Nat) (hk : 0 < k) :
    ∀ (ts : List α), (posRangeBy ts.length k).flatMap (fun i => (ts.drop i).take k) = ts := by
  intro ts
  by_cases h0 : ts = []
  · subst h0
    simp [posRangeBy_zero k hk]
  · have hn : 0 < ts.length := List.length_pos.mpr h0
    rw [posRangeBy_pos ts.length k hk hn, List.flatMap_cons]
    have hmap : ((posRangeBy (ts.length - k) k).map (· + k)).flatMap
          (fun i => (ts.drop i).take k)
        = (posRangeBy (ts.drop k).length k).flatMap (fun i => ((ts.drop k).drop i).take k) := by
      rw [List.flatMap_map, List.length_drop]
      refine List.flatMap_congr ?_
      intro i _
      rw [List.drop_drop, Nat.add_comm]
    rw [hmap, flatMap_chunks_eq k hk (ts.drop k)]
    simp
termination_by ts => ts.length
decreasing_by
  simp only [List.length_drop]
  omega

theorem encodeBatches_eq (encode : String → Emb) (ts : List String) :
    encodeBatches encode ts = ts.map encode := by
  unfold encodeBatches
  have h := flatMap_chunks_eq 32 (by omega) ts
  calc (posRangeBy ts.length 32).flatMap (fun i => ((ts.drop i).take 32).map encode)
      = ((posRangeBy ts.length 32).flatMap (fun i => (ts.drop i).take 32)).map encode :=
        (List.map_flatMap _ _ _).symm
    _ = ts.map encode := by rw [h]

theorem filterMap_lookup_of_no_miss (cache : Cache) (encode : String → Emb) :
    ∀ ts : List String, ts.filter (fun t => (lookupCache cache t).isNone) = [] →
      ts.filterMap (lookupCache cache) = ts.map (resolveEmb cache encode) := by
  intro ts
  induction ts with
  | nil => intro _; simp
  | cons t ts ih =>
    intro h
    cases hl : lookupCache cache t with
    | some e =>
      rw [List.filter_cons_of_neg (by simp [hl])] at h
      simp [List.filterMap_cons, hl, ih h, resolveEmb]
    | none =>
      rw [List.filter_cons_of_pos (by simp [hl])] at h
      simp at h

theorem foldl_prepend (l : List (String × Emb)) (c : Cache) :
    l.foldl (fun c p => (p.1, p.2) :: c) c = l.reverse ++ c := by
  induction l generalizing c with
  | nil => simp
  | cons p l ih => simp [List.foldl_cons, ih]

theorem zip_self_map (encode : String → Emb) :
    ∀ l : List String, l.zip (l.map encode) = l.map (fun t => (t, encode t)) := by
  intro l
  induction l with
  | nil => simp
  | cons t l ih => simp [ih]

theorem lookup_mapped_mem (encode : String → Emb) :
    ∀ (l : List String) (c : Cache) (t : String), t ∈ l →
      lookupCache ((l.map (fun s => (s, encode s))) ++ c) t = some (encode t) := by
  intro l
  induction l with
  | nil => intro c t h; simp at h
  | cons s l ih =>
    intro c t h
    by_cases hs : s = t
    · subst hs
      simp [lookupCache, List.find?_cons_of_pos]
    · have ht : t ∈ l := by
        rcases List.mem_cons.mp h with h | h
        · exact absurd h.symm hs
        · exact h
      have : lookupCache ((l.map (fun s => (s, encode s))) ++ c) t = some (encode t) := ih c t ht
      simpa [lookupCache, List.find?_cons_of_neg, hs] using this

theorem lookup_mapped_not_mem (encode : String → Emb) :
    ∀ (l : List String) (c : Cache) (t : String), t ∉ l →
      lookupCache ((l.map (fun s => (s, encode s))) ++ c) t = lookupCache c t := by
  intro l
  induction l with
  | nil => intro c t h; simp
  | cons s l ih =>
    intro c t h
    have hs : s ≠ t := by intro hc; exact h (hc ▸ List.mem_cons_self s l)
    have ht : t ∉ l := fun hc => h (List.mem_cons_of_mem s hc)
    simpa [lookupCache, List.find?_cons_of_neg, hs] using ih c t ht

/-- Complete behavioural characterisation of `create_embeddings`: output
embeddings in input order (cache hits resolved from the cache, misses
freshly encoded), the backend is invoked on exactly the cache-miss texts,
and the cache afterwards binds exactly the misses to their new embeddings
and is otherwise unchanged. -/
theorem create_embeddings_spec (encode : String → Emb) (cache : Cache) (texts : List String) :
    (create_embeddings encode cache texts).embeddings = texts.map (resolveEmb cache encode)
    ∧ (create_embeddings encode cache texts).sent
        = texts.filter (fun t => (lookupCache cache t).isNone)
    ∧ ∀ t : String, lookupCache (create_embeddings encode cache texts).cache t
        = if t ∈ texts.filter (fun t => (lookupCache cache t).isNone)
          then some (encode t) else lookupCache cache t := by
  unfold create_embeddings
  by_cases h0 : texts = []
  · subst h0; simp
  · rw [if_neg h0]
    by_cases h1 : (scanCache cache texts 0).2.2 = []
    · rw [if_pos h1]
      have hm : texts.filter (fun t => (lookupCache cache t).isNone) = [] := by
        rw [← scanCache_misses cache texts 0]; exact h1
      refine ⟨?_, by simp [hm], ?_⟩
      · simp only []
        rw [scanCache_fst, filterMap_lookup_of_no_miss cache encode texts hm]
      · intro t
        simp [hm]
    · rw [if_neg h1]
      have hmiss : (scanCache cache texts 0).2.2
          = texts.filter (fun t => (lookupCache cache t).isNone) := scanCache_misses cache texts 0
      refine ⟨?_, hmiss, ?_⟩
      · simp only []
        rw [scanCache_fst]
        have hdrop : (encodeBatches encode (scanCache cache texts 0).2.2).drop 0
            = (texts.filter (fun t => (lookupCache cache t).isNone)).map encode := by
          simp [encodeBatches_eq, hmiss]
        have hml := mergeLoop_spec cache encode texts [] [] 0
          (encodeBatches encode (scanCache cache texts 0).2.2)
          (by intro j hj; simp at hj) hdrop
        simp only [List.length_nil, List.nil_append] at hml
        rw [hml]
      · intro t
        simp only []
        rw [encodeBatches_eq, zip_self_map, foldl_prepend, ← List.map_reverse]
        by_cases hm : t ∈ (scanCache cache texts 0).2.2
        · rw [lookup_mapped_mem encode _ cache t (by simpa using hm)]
          rw [hmiss] at hm
          simp [hm]
        · rw [lookup_mapped_not_mem encode _ cache t (by simpa using hm)]
          rw [hmiss] at hm
          simp [hm]

/-- C4: `create_embeddings` returns exactly one embedding per input, in input
order, whatever the cache hit/miss interleaving; it consults the cache keyed
by the exact input string before computing (the backend is invoked on
exactly the cache-miss inputs); every newly computed embedding is stored in
the cache before returning; and consequently embedding the same string in
two successive calls yields identical vectors with the backend invoked at
most once for that string. -/
theorem C4_create_embeddings_cache (encode : String → Emb) (cache : Cache)
    (texts : List String) (x : String) :
    (create_embeddings encode cache texts).embeddings = texts.map (resolveEmb cache encode)
    ∧ (create_embeddings encode cache texts).embeddings.length = texts.length
    ∧ (create_embeddings encode cache texts).sent
        = texts.filter (fun t => (lookupCache cache t).isNone)
    ∧ (∀ t ∈ texts, lookupCache (create_embeddings encode cache texts).cache t
        = some (resolveEmb cache encode t))
    ∧ ((create_embeddings encode (create_embeddings encode cache [x]).cache [x]).embeddings
        = (create_embeddings encode cache [x]).embeddings
      ∧ (create_embeddings encode (create_embeddings encode cache [x]).cache [x]).sent = []
      ∧ ((create_embeddings encode cache [x]).sent
          ++ (create_embeddings encode (create_embeddings encode cache [x]).cache [x]).sent).count x
          ≤ 1) := by
  obtain ⟨hemb, hsent, hcache⟩ := create_embeddings_spec encode cache texts
  obtain ⟨hemb1, hsent1, hcache1⟩ := create_embeddings_spec encode cache [x]
  refine ⟨hemb, by rw [hemb]; simp, hsent, ?_, ?_⟩
  · intro t ht
    rw [hcache t]
    by_cases hm : (lookupCache cache t).isNone
    · rw [if_pos (by simp [List.mem_filter, ht, hm])]
      rcases hn : lookupCache cache t with _ | e
      · simp [resolveEmb, hn]
      · rw [hn] at hm; simp at hm
    · rw [if_neg (by simp [List.mem_filter, hm])]
      rcases hn : lookupCache cache t with _ | e
      · rw [hn] at hm; simp at hm
      · simp [resolveEmb, hn]
  · have hx : lookupCache (create_embeddings encode cache [x]).cache x
        = some (resolveEmb cache encode x) := by
      rw [hcache1 x]
      by_cases hm : (lookupCache cache x).isNone
      · rw [if_pos (by simp [List.mem_filter, hm])]
        rcases hn : lookupCache cache x with _ | e
        · simp [resolveEmb, hn]
        · rw [hn] at hm; simp at hm
      · rw [if_neg (by simp [List.mem_filter, hm])]
        rcases hn : lookupCache cache x with _ | e
        · rw [hn] at hm; simp at hm
        · simp [resolveEmb, hn]
    obtain ⟨hemb2, hsent2, _⟩ :=
      create_embeddings_spec encode (create_embeddings encode cache [x]).cache [x]
    have hx2 : (lookupCache (create_embeddings encode cache [x]).cache x).isNone = false := by
      rw [hx]; rfl
    have hsent2' : (create_embeddings encode (create_embeddings encode cache [x]).cache [x]).sent
        = [] := by
      rw [hsent2]; simp [List.filter_cons, hx2]
    refine ⟨?_, hsent2', ?_⟩
    · rw [hemb2, hemb1]
      simp [resolveEmb, hx]
    · rw [hsent2', hsent1]
      simp only [List.append_nil]
      by_cases hm : (lookupCache cache x).isNone
      · simp [List.filter_cons, hm]
      · simp [List.filter_cons, hm]

/-- C4 witness: with the concrete cache binding "a" to `[5]` and the backend
embedding a string to `[its length]`, the inputs `["a", "b"]` resolve in
order (hit then miss) and afterwards the cache binds the miss "b". -/
theorem C4_witness :
    "b" ∈ ["a", "b"]
    ∧ lookupCache (create_embeddings (fun t => [(t.length : ℚ)]) [("a", [5])] ["a", "b"]).cache "b"
        = some (resolveEmb [("a", [5])] (fun t => [(t.length : ℚ)]) "b") :=
  ⟨by decide,
    (C4_create_embeddings_cache (fun t => [(t.length : ℚ)]) [("a", [5])] ["a", "b"] "a").2.2.2.1
      "b" (by decide)⟩

/-! ## VectorStore (`VectorService.store_vectors` and helpers)

The Pinecone client is an environment: an availability flag, an `upsert`
call that may raise, and a per-attempt `describe_index_stats` total count
that may raise.  The filesystem is the list of written snapshot files
(newest first) inside the service state; `uuid4().hex[:8]` is an injected
supply `uuid : Nat → String`; `time.time()` is the injected `now`. -/

/-- The `vector_metadata` dict built for each chunk (the optional extra
`metadata` argument is `None` at every call site and is omitted here). -/
structure VectorMeta where
  filename : String
  chunk_index : Nat
  text : String
  chunk_size : Nat
deriving DecidableEq, Repr

/-- A persisted vector record `{id, values, metadata}`. -/
structure VectorRecord where
  id : String
  values : Emb
  metadata : VectorMeta
deriving DecidableEq, Repr

/-- The JSON snapshot payload `backup_data`. -/
structure BackupData where
  filename : String
  timestamp : Nat
  chunks : List String
  vectors : List VectorRecord
deriving DecidableEq, Repr

/-- Mutable service state: the embedding cache and the snapshot files on
disk, newest first. -/
structure VSState where
  cache : Cache
  files : List (String × BackupData)
deriving DecidableEq, Repr

/-- The remote (Pinecone) backend, as seen by one `store_vectors` call. -/
structure RemoteEnv where
  available : Bool
  upsert : List VectorRecord → Except String Unit
  stats : Nat → Except String Nat

/-- The `for i, (chunk, embedding) in enumerate(zip(chunks, embeddings))`
record-building loop shared verbatim by `_store_vectors_pinecone` and
`_store_vectors_json`. -/
def buildVectorsGo (uuid : Nat → String) (f : String) :
    List (String × Emb) → Nat → List VectorRecord
  | [], _ => []
  | (chunk, emb) :: rest, i =>
    ⟨f ++ "_" ++ uuid i ++ "_" ++ toString i, emb, ⟨f, i, chunk, chunk.length⟩⟩
      :: buildVectorsGo uuid f rest (i + 1)

/-- The vector records built from `chunks`/`embeddings` for `filename`. -/
def buildVectors (uuid : Nat → String) (f : String)
    (chunks : List String) (embeddings : List Emb) : List VectorRecord :=
  buildVectorsGo uuid f (chunks.zip embeddings) 0

/-- Result dict of `store_vectors` (error results leave the remaining
fields at their Python-absent placeholders). -/
structure StoreResult where
  status : String
  message : String
  filename : String
  chunks_stored : Nat
  total_vectors : Nat
  storage_method : String
  backup_file : String
deriving DecidableEq, Repr

/-- `_store_vectors_json`: build the records, write one new snapshot file
`vectors_backup_{filename}_{int(time.time())}.json`, return success. -/
def store_vectors_json (uuid : Nat → String) (now : Nat) (st : VSState)
    (filename : String) (chunks : List String) (embeddings : List Emb) :
    StoreResult × VSState :=
  let vectors := buildVectors uuid filename chunks embeddings
  let backupFile := "vectors_backup_" ++ filename ++ "_" ++ toString now ++ ".json"
  let data : BackupData := ⟨filename, now, chunks, vectors⟩
  (⟨"success", "PDF processed and saved to JSON", filename, chunks.length,
      vectors.length, "json_backup", backupFile⟩,
   ⟨st.cache, (backupFile, data) :: st.files⟩)

/-- The `for attempt in range(max_wait)` polling loop of
`_wait_for_consistency`: per attempt query the remote count; a count at
least `expected` returns `True`; errors and low counts sleep one second
(time is abstracted away) and continue; exhaustion returns `False`.
Returns the boolean and the number of attempts made. -/
def waitLoop (stats : Nat → Except String Nat) (expected : Nat) :
    Nat → Nat → Bool × Nat
  | 0, att => (false, att)
  | fuel + 1, att =>
    match stats att with
    | .ok c => if expected ≤ c then (true, att + 1) else waitLoop stats expected fuel (att + 1)
    | .error _ => waitLoop stats expected fuel (att + 1)

/-- `VectorService._wait_for_consistency`. -/
def wait_for_consistency (stats : Nat → Except String Nat) (expected : Nat)
    (max_wait : Nat := 30) : Bool × Nat :=
  waitLoop stats expected max_wait 0

/-- Sequential upsert over a prepared batch list; a raising batch aborts the
loop and propagates its exception.  Returns the batches attempted and the
outcome. -/
def upsertGo (env : RemoteEnv) : List (List VectorRecord) →
    List (List VectorRecord) × Except String Unit
  | [] => ([], .ok ())
  | b :: bs =>
    match env.upsert b with
    | .error e => ([b], .error e)
    | .ok _ =>
      let r := upsertGo env bs
      (b :: r.1, r.2)

/-- The `for i in range(0, len(vectors_to_upsert), 100)` upsert loop of
`_store_vectors_pinecone`: the slices `vectors_to_upsert[i:i+100]` are
upserted in order. -/
def upsertBatches (env : RemoteEnv) (vs : List VectorRecord) :
    List (List VectorRecord) × Except String Unit :=
  upsertGo env ((posRangeBy vs.length 100).map (fun i => (vs.drop i).take 100))

/-- `_store_vectors_pinecone`: build the records, upsert in batches of 100,
wait for consistency (the boolean result is ignored), return success.
A raising upsert propagates as `.error`. -/
def store_vectors_pinecone (env : RemoteEnv) (uuid : Nat → String)
    (filename : String) (chunks : List String) (embeddings : List Emb) :
    List (List VectorRecord) × Except String StoreResult :=
  let vectors := buildVectors uuid filename chunks embeddings
  let r := upsertBatches env vectors
  match r.2 with
  | .error e => (r.1, .error e)
  | .ok _ =>
    let _ := wait_for_consistency env.stats vectors.length 30
    (r.1, .ok ⟨"success", "PDF processed and stored in Pinecone (synced)", filename,
        chunks.length, vectors.length, "pinecone", ""⟩)

/-- Outcome of one `store_vectors` call: the returned dict, the new service
state, and the batches that were sent to the remote backend. -/
structure StoreOutcome where
  result : StoreResult
  state : VSState
  upserts : List (List VectorRecord)
deriving Repr

/-- `VectorService.store_vectors`: reject empty/whitespace text, chunk,
embed (updating the cache), then try Pinecone when available, falling back
to the JSON snapshot on any exception. -/
def store_vectors (env : RemoteEnv) (encode : String → Emb) (uuid : Nat → String)
    (now : Nat) (st : VSState) (filename : String) (full_text : String) : StoreOutcome :=
  if pyStrip full_text = "" then
    ⟨⟨"error", "Empty text provided", filename, 0, 0, "", ""⟩, st, []⟩
  else
    let chunks := split_text_into_chunks full_text
    if chunks = [] then
      ⟨⟨"error", "No chunks created from text", filename, 0, 0, "", ""⟩, st, []⟩
    else
      let eo := create_embeddings encode st.cache chunks
      let st1 : VSState := ⟨eo.cache, st.files⟩
      if env.available then
        match h : store_vectors_pinecone env uuid filename chunks eo.embeddings with
        | (sent, .ok res) => ⟨res, st1, sent⟩
        | (sent, .error _) =>
          let r := store_vectors_json uuid now st1 filename chunks eo.embeddings
          ⟨r.1, r.2, sent⟩
      else
        let r := store_vectors_json uuid now st1 filename chunks eo.embeddings
        ⟨r.1, r.2, []⟩

theorem buildVectorsGo_values (uuid : Nat → String) (f : String) :
    ∀ (ps : List (String × Emb)) (i : Nat),
      (buildVectorsGo uuid f ps i).map (·.values) = ps.map Prod.snd := by
  intro ps
  induction ps with
  | nil => intro i; simp [buildVectorsGo]
  | cons p rest ih => intro i; cases p; simp [buildVectorsGo, ih]

theorem buildVectorsGo_texts (uuid : Nat → String) (f : String) :
    ∀ (ps : List (String × Emb)) (i : Nat),
      (buildVectorsGo uuid f ps i).map (fun v => v.metadata.text) = ps.map Prod.fst := by
  intro ps
  induction ps with
  | nil => intro i; simp [buildVectorsGo]
  | cons p rest ih => intro i; cases p; simp [buildVectorsGo, ih]

theorem buildVectorsGo_length (uuid : Nat → String) (f : String) :
    ∀ (ps : List (String × Emb)) (i : Nat),
      (buildVectorsGo uuid f ps i).length = ps.length := by
  intro ps
  induction ps with
  | nil => intro i; simp [buildVectorsGo]
  | cons p rest ih => intro i; cases p; simp [buildVectorsGo, ih]

theorem stringMk_eq_empty_iff (l : List Char) : String.mk l = "" ↔ l = [] := by
  constructor
  · intro h
    have := congrArg String.data h
    simpa using this
  · intro h; rw [h]

theorem pyStrip_ne_empty_iff (s : String) : pyStrip s ≠ "" ↔ pyStripL s.toList ≠ [] := by
  unfold pyStrip
  constructor
  · intro h hc; exact h (by rw [hc])
  · intro h hc; exact h (by simpa using congrArg String.data hc)

theorem pySplitL_eq_nil (cs : List Char) :
    ∀ acc, pySplitL cs acc = [] → acc = [] ∧ ∀ c ∈ cs, pyIsSpace c = true := by
  induction cs with
  | nil =>
    intro acc h
    unfold pySplitL at h
    by_cases ha : acc = []
    · exact ⟨ha, by simp⟩
    · rw [if_neg ha] at h; simp at h
  | cons c cs ih =>
    intro acc h
    unfold pySplitL at h
    by_cases hc : pyIsSpace c
    · rw [if_pos hc] at h
      by_cases ha : acc = []
      · rw [if_pos ha] at h
        obtain ⟨-, h2⟩ := ih [] h
        refine ⟨ha, ?_⟩
        intro a hmem
        rcases List.mem_cons.mp hmem with hm | hm
        · subst hm; exact hc
        · exact h2 a hm
      · rw [if_neg ha] at h; simp at h
    · rw [if_neg hc] at h
      obtain ⟨h1, -⟩ := ih (c :: acc) h
      simp at h1

theorem allSpace_strip_nil (cs : List Char) (h : ∀ c ∈ cs, pyIsSpace c = true) :
    pyStripL cs = [] := by
  unfold pyStripL
  have h1 : cs.dropWhile pyIsSpace = [] := List.dropWhile_eq_nil_iff.mpr h
  simp [h1]

theorem mem_dropWhile_of_not (p : Char → Bool) :
    ∀ (cs : List Char) (a : Char), a ∈ cs → p a = false → a ∈ cs.dropWhile p := by
  intro cs
  induction cs with
  | nil => intro a h _; simp at h
  | cons c cs ih =>
    intro a h hp
    by_cases hc : p c
    · rw [List.dropWhile_cons_of_pos hc]
      rcases List.mem_cons.mp h with h | h
      · subst h; rw [hc] at hp; simp at hp
      · exact ih a h hp
    · rw [List.dropWhile_cons_of_neg hc]
      exact h

theorem strip_ne_nil_of_mem (cs : List Char) (a : Char)
    (ha : a ∈ cs) (hp : pyIsSpace a = false) : pyStripL cs ≠ [] := by
  intro h
  unfold pyStripL at h
  rw [List.reverse_eq_nil_iff] at h
  have h2 := List.dropWhile_eq_nil_iff.mp h
  have h3 : a ∈ (cs.dropWhile pyIsSpace).reverse := by
    rw [List.mem_reverse]
    exact mem_dropWhile_of_not pyIsSpace cs a ha hp
  have := h2 a h3
  rw [hp] at this
  simp at this

theorem pySplitL_words_nonspace (cs : List Char) :
    ∀ acc, (∀ c ∈ acc, pyIsSpace c = false) →
      ∀ w ∈ pySplitL cs acc, w ≠ [] ∧ ∀ c ∈ w, pyIsSpace c = false := by
  induction cs with
  | nil =>
    intro acc hacc w hw
    unfold pySplitL at hw
    by_cases ha : acc = []
    · rw [if_pos ha] at hw; simp at hw
    · rw [if_neg ha, List.mem_singleton] at hw
      subst hw
      refine ⟨by simpa using ha, ?_⟩
      intro c hc
      exact hacc c (List.mem_reverse.mp hc)
  | cons c cs ih =>
    intro acc hacc w hw
    unfold pySplitL at hw
    by_cases hc : pyIsSpace c
    · rw [if_pos hc] at hw
      by_cases ha : acc = []
      · rw [if_pos ha] at hw
        exact ih [] (by simp) w hw
      · rw [if_neg ha] at hw
        rcases List.mem_cons.mp hw with h | h
        · subst h
          refine ⟨by simpa using ha, ?_⟩
          intro d hd
          exact hacc d (List.mem_reverse.mp hd)
        · exact ih [] (by simp) w h
    · rw [if_neg hc] at hw
      refine ih (c :: acc) ?_ w hw
      intro d hd
      rcases List.mem_cons.mp hd with h | h
      · subst h; simpa using hc
      · exact hacc d h

theorem pySplit_ne_nil (text : String) (hT : pyStrip text ≠ "") : pySplit text ≠ [] := by
  intro h
  unfold pySplit at h
  rw [List.map_eq_nil] at h
  obtain ⟨_, hall⟩ := pySplitL_eq_nil text.toList [] h
  exact hT (by
    unfold pyStrip
    rw [allSpace_strip_nil text.toList hall])

theorem pySplit_words_nonspace (text : String) :
    ∀ w ∈ pySplit text, w.toList ≠ [] ∧ ∀ c ∈ w.toList, pyIsSpace c = false := by
  intro w hw
  unfold pySplit at hw
  rw [List.mem_map] at hw
  obtain ⟨l, hl, hlw⟩ := hw
  obtain ⟨hne, hns⟩ := pySplitL_words_nonspace text.toList [] (by simp) l hl
  subst hlw
  exact ⟨by simpa using hne, by simpa using hns⟩

theorem mem_joinWordsL_head :
    ∀ (w : List Char) (ws : List (List Char)) (c : Char), c ∈ w → c ∈ joinWordsL (w :: ws) := by
  intro w ws c hc
  cases ws with
  | nil => simpa [joinWordsL] using hc
  | cons w2 ws => simp [joinWordsL, hc]

/-- For a non-whitespace text and a valid configuration (`overlap <
chunk_size`), the chunker never produces an empty chunk list. -/
theorem split_chunks_ne_nil (text : String) (cs ov : Nat)
    (hT : pyStrip text ≠ "") (hov : ov < cs) :
    split_text_into_chunks text cs ov ≠ [] := by
  unfold split_text_into_chunks
  rw [if_neg hT]
  by_cases hlen : (pySplit text).length ≤ cs
  · simp [hlen]
  · rw [if_neg hlen]
    have hstep : ¬ ((cs : Int) - (ov : Int) ≤ 0) := by omega
    rw [if_neg hstep]
    simp only []
    intro hcontra
    rw [List.filterMap_eq_nil] at hcontra
    -- index 0 is in the range
    have hn : 0 < (pySplit text).length := by omega
    have hq : 1 ≤ ((pySplit text).length + (cs - ov) - 1) / (cs - ov) := by
      rw [Nat.le_div_iff_mul_le (by omega)]
      omega
    have h0 : (0 : Nat) ∈ posRangeBy (pySplit text).length (cs - ov) := by
      unfold posRangeBy
      rw [List.mem_map]
      exact ⟨0, by rw [List.mem_range]; omega, by simp⟩
    have := hcontra 0 h0
    -- the first chunk is non-whitespace
    obtain ⟨w, ws, hsplit⟩ : ∃ w ws, pySplit text = w :: ws := by
      cases hs : pySplit text with
      | nil => rw [hs] at hn; simp at hn
      | cons w ws => exact ⟨w, ws, rfl⟩
    obtain ⟨hwne, hwns⟩ := pySplit_words_nonspace text w (by rw [hsplit]; simp)
    obtain ⟨c0, cr, hc0⟩ : ∃ c0 cr, w.toList = c0 :: cr := by
      cases hc : w.toList with
      | nil => exact absurd hc hwne
      | cons c0 cr => exact ⟨c0, cr, rfl⟩
    have hcs1 : ∃ k, cs = k + 1 := ⟨cs - 1, by omega⟩
    obtain ⟨k, hk⟩ := hcs1
    have htake : ((pySplit text).drop 0).take cs = w :: ws.take k := by
      rw [List.drop_zero, hsplit, hk]
      simp
    rw [htake] at this
    have hmem : c0 ∈ (joinWords (w :: ws.take k)).toList := by
      unfold joinWords
      have : (joinWords (w :: ws.take k)).toList
          = joinWordsL ((w :: ws.take k).map String.toList) := rfl
      simp only [List.map_cons]
      exact mem_joinWordsL_head w.toList _ c0 (by rw [hc0]; simp)
    have hstripne : pyStrip (joinWords (w :: ws.take k)) ≠ "" :=
      (pyStrip_ne_empty_iff _).mpr
        (strip_ne_nil_of_mem _ c0 hmem (hwns c0 (by rw [hc0]; simp)))
    rw [if_neg hstripne] at this
    simp at this

theorem waitLoop_succ_ok (stats : Nat → Except String Nat) (expected fuel att c : Nat)
    (h : stats att = Except.ok c) :
    waitLoop stats expected (fuel + 1) att
      = if expected ≤ c then (true, att + 1) else waitLoop stats expected fuel (att + 1) := by
  simp only [waitLoop, h]

theorem waitLoop_succ_err (stats : Nat → Except String Nat) (expected fuel att : Nat)
    (e : String) (h : stats att = Except.error e) :
    waitLoop stats expected (fuel + 1) att = waitLoop stats expected fuel (att + 1) := by
  simp only [waitLoop, h]

theorem waitLoop_att_le (stats : Nat → Except String Nat) (expected : Nat) :
    ∀ (fuel att : Nat), (waitLoop stats expected fuel att).2 ≤ att + fuel := by
  intro fuel
  induction fuel with
  | zero => intro att; simp [waitLoop]
  | succ n ih =>
    intro att
    cases hs : stats att with
    | ok c =>
      rw [waitLoop_succ_ok stats expected n att c hs]
      by_cases hc : expected ≤ c
      · rw [if_pos hc]
        show att + 1 ≤ att + (n + 1)
        omega
      · rw [if_neg hc]
        have := ih (att + 1); omega
    | error e =>
      rw [waitLoop_succ_err stats expected n att e hs]
      have := ih (att + 1); omega

theorem waitLoop_first_hit (stats : Nat → Except String Nat) (expected : Nat) :
    ∀ (fuel att k ck : Nat), att ≤ k → k < att + fuel →
      (∀ j, att ≤ j → j < k → ∀ c, stats j = Except.ok c → c < expected) →
      stats k = Except.ok ck → expected ≤ ck →
      waitLoop stats expected fuel att = (true, k + 1) := by
  intro fuel
  induction fuel with
  | zero => intro att k ck h1 h2; omega
  | succ n ih =>
    intro att k ck h1 h2 hprior hk hck
    by_cases hak : k = att
    · subst hak
      rw [waitLoop_succ_ok stats expected n k ck hk]
      simp [hck]
    · cases hs : stats att with
      | ok c =>
        have hclt : c < expected := hprior att (le_refl att) (by omega) c hs
        rw [waitLoop_succ_ok stats expected n att c hs, if_neg (by omega)]
        exact ih (att + 1) k ck (by omega) (by omega)
          (fun j hj1 hj2 c hc => hprior j (by omega) hj2 c hc) hk hck
      | error e =>
        rw [waitLoop_succ_err stats expected n att e hs]
        exact ih (att + 1) k ck (by omega) (by omega)
          (fun j hj1 hj2 c hc => hprior j (by omega) hj2 c hc) hk hck

theorem waitLoop_false_no_hit (stats : Nat → Except String Nat) (expected : Nat) :
    ∀ (fuel att : Nat), (waitLoop stats expected fuel att).1 = false →
      ∀ k, att ≤ k → k < att + fuel → ∀ c, stats k = Except.ok c → c < expected := by
  intro fuel
  induction fuel with
  | zero => intro att h k h1 h2; omega
  | succ n ih =>
    intro att h k h1 h2 c hc
    by_cases hak : k = att
    · subst hak
      rw [waitLoop_succ_ok stats expected n k c hc] at h
      by_cases hce : expected ≤ c
      · rw [if_pos hce] at h; simp at h
      · omega
    · cases hs : stats att with
      | ok c2 =>
        rw [waitLoop_succ_ok stats expected n att c2 hs] at h
        by_cases hce : expected ≤ c2
        · rw [if_pos hce] at h; simp at h
        · rw [if_neg hce] at h
          exact ih (att + 1) h k (by omega) (by omega) c hc
      | error e =>
        rw [waitLoop_succ_err stats expected n att e hs] at h
        exact ih (att + 1) h k (by omega) (by omega) c hc

theorem upsertGo_ok (env : RemoteEnv) (hOk : ∀ b, env.upsert b = Except.ok ()) :
    ∀ bs, (upsertGo env bs).2 = Except.ok () := by
  intro bs
  induction bs with
  | nil => rfl
  | cons b bs ih =>
    simp only [upsertGo, hOk b]
    exact ih

theorem upsertBatches_ok (env : RemoteEnv) (hOk : ∀ b, env.upsert b = Except.ok ())
    (vs : List VectorRecord) : (upsertBatches env vs).2 = Except.ok () := by
  unfold upsertBatches
  exact upsertGo_ok env hOk _

/-- C9: on empty or whitespace-only text, `store_vectors` returns an error
result and changes nothing: no remote upsert is attempted, no snapshot file
is written, and the embedding cache (the whole state) is unchanged. -/
theorem C9_empty_text_rejected (env : RemoteEnv) (encode : String → Emb)
    (uuid : Nat → String) (now : Nat) (st : VSState) (filename text : String)
    (h : pyStrip text = "") :
    (store_vectors env encode uuid now st filename text).result.status = "error"
    ∧ (store_vectors env encode uuid now st filename text).state = st
    ∧ (store_vectors env encode uuid now st filename text).upserts = [] := by
  unfold store_vectors
  rw [if_pos h]
  exact ⟨rfl, rfl, rfl⟩

/-- C9 witness: the whitespace-only text "  \n " is rejected with no state
change against a live remote backend. -/
theorem C9_witness :
    pyStrip "  \n " = ""
    ∧ ((store_vectors ⟨true, fun _ => Except.ok (), fun _ => Except.ok 0⟩
          (fun _ => [1]) (fun _ => "u") 0 ⟨[], []⟩ "f" "  \n ").result.status = "error"
      ∧ (store_vectors ⟨true, fun _ => Except.ok (), fun _ => Except.ok 0⟩
          (fun _ => [1]) (fun _ => "u") 0 ⟨[], []⟩ "f" "  \n ").state = ⟨[], []⟩
      ∧ (store_vectors ⟨true, fun _ => Except.ok (), fun _ => Except.ok 0⟩
          (fun _ => [1]) (fun _ => "u") 0 ⟨[], []⟩ "f" "  \n ").upserts = []) :=
  ⟨by decide,
    C9_empty_text_rejected ⟨true, fun _ => Except.ok (), fun _ => Except.ok 0⟩
      (fun _ => [1]) (fun _ => "u") 0 ⟨[], []⟩ "f" "  \n " (by decide)⟩

/-- C8: after a successful remote write the consistency poll makes at most
30 attempts; it stops early at the first attempt whose reported count
reaches the expected number; if the poll result is `false` (timeout) then
no attempt ever reached the count — and `_store_vectors_pinecone`
nevertheless returns a success result whatever the poll outcome (the
boolean is discarded; the one-second sleeps are abstracted away). -/
theorem C8_bounded_consistency_poll (stats : Nat → Except String Nat) (expected : Nat)
    (env : RemoteEnv) (uuid : Nat → String) (filename : String)
    (chunks : List String) (embeddings : List Emb)
    (hOk : ∀ b, env.upsert b = Except.ok ()) :
    (wait_for_consistency stats expected 30).2 ≤ 30
    ∧ (∀ k ck, k < 30 → (∀ j, j < k → ∀ c, stats j = Except.ok c → c < expected) →
        stats k = Except.ok ck → expected ≤ ck →
        wait_for_consistency stats expected 30 = (true, k + 1))
    ∧ ((wait_for_consistency stats expected 30).1 = false →
        ∀ k, k < 30 → ∀ c, stats k = Except.ok c → c < expected)
    ∧ (∃ res, (store_vectors_pinecone env uuid filename chunks embeddings).2 = Except.ok res
        ∧ res.status = "success" ∧ res.storage_method = "pinecone") := by
  refine ⟨?_, ?_, ?_, ?_⟩
  · have := waitLoop_att_le stats expected 30 0
    unfold wait_for_consistency
    omega
  · intro k ck hk hprior hsk hck
    exact waitLoop_first_hit stats expected 30 0 k ck (by omega) (by omega)
      (fun j _ hj c hc => hprior j hj c hc) hsk hck
  · intro hfalse k hk c hc
    exact waitLoop_false_no_hit stats expected 30 0 hfalse k (by omega) (by omega) c hc
  · unfold store_vectors_pinecone
    have h := upsertBatches_ok env hOk (buildVectors uuid filename chunks embeddings)
    simp only [h]
    exact ⟨_, rfl, rfl, rfl⟩

/-- C8 witness: a backend whose reported count reaches the expected value on
the very first attempt stops after one poll, and the store returns
success. -/
theorem C8_witness :
    (∀ b, RemoteEnv.upsert ⟨true, fun _ => Except.ok (), fun _ => Except.ok 5⟩ b = Except.ok ())
    ∧ ((wait_for_consistency (fun _ => Except.ok 5) 1 30).2 ≤ 30
      ∧ (∃ res, (store_vectors_pinecone ⟨true, fun _ => Except.ok (), fun _ => Except.ok 5⟩
            (fun _ => "u") "f" ["hello"] [[1]]).2 = Except.ok res
          ∧ res.status = "success" ∧ res.storage_method = "pinecone")) :=
  ⟨fun _ => rfl,
    (C8_bounded_consistency_poll (fun _ => Except.ok 5) 1
        ⟨true, fun _ => Except.ok (), fun _ => Except.ok 5⟩
        (fun _ => "u") "f" ["hello"] [[1]] (fun _ => rfl)).1,
    (C8_bounded_consistency_poll (fun _ => Except.ok 5) 1
        ⟨true, fun _ => Except.ok (), fun _ => Except.ok 5⟩
        (fun _ => "u") "f" ["hello"] [[1]] (fun _ => rfl)).2.2.2⟩

/-- C2: when the remote backend raises during `store_vectors` on a
non-whitespace text, the write falls back to the JSON snapshot: a new
snapshot file is prepended to the filesystem, holding exactly the chunk
list and one vector record per chunk whose values are exactly the
embeddings that were sent to (and rejected by) the remote backend, and the
call still returns success via `json_backup`. -/
theorem C2_store_fallback_durable (env : RemoteEnv) (encode : String → Emb)
    (uuid : Nat → String) (now : Nat) (st : VSState) (filename text : String)
    (hT : pyStrip text ≠ "") (hA : env.available = true)
    (hErr : ∃ e, (store_vectors_pinecone env uuid filename (split_text_into_chunks text)
        (create_embeddings encode st.cache (split_text_into_chunks text)).embeddings).2
        = Except.error e) :
    (store_vectors env encode uuid now st filename text).result.status = "success"
    ∧ (store_vectors env encode uuid now st filename text).result.storage_method = "json_backup"
    ∧ ∃ name data,
        (store_vectors env encode uuid now st filename text).state.files
          = (name, data) :: st.files
        ∧ data.chunks = split_text_into_chunks text
        ∧ data.vectors.length = data.chunks.length
        ∧ data.vectors.map (·.values)
            = (create_embeddings encode st.cache (split_text_into_chunks text)).embeddings
        ∧ data.vectors.map (fun v => v.metadata.text) = data.chunks := by
  have hC : split_text_into_chunks text ≠ [] :=
    split_chunks_ne_nil text 300 50 hT (by omega)
  have hlen : (create_embeddings encode st.cache (split_text_into_chunks text)).embeddings.length
      = (split_text_into_chunks text).length := by
    rw [(create_embeddings_spec encode st.cache (split_text_into_chunks text)).1]
    simp
  obtain ⟨e, he⟩ := hErr
  unfold store_vectors
  rw [if_neg hT, if_neg hC, hA]
  simp only [if_true]
  rcases hsp : store_vectors_pinecone env uuid filename (split_text_into_chunks text)
      (create_embeddings encode st.cache (split_text_into_chunks text)).embeddings
    with ⟨sent, r⟩
  rw [hsp] at he
  simp only at he
  subst he
  simp only [hsp]
  unfold store_vectors_json
  refine ⟨rfl, rfl, _, _, rfl, rfl, ?_, ?_, ?_⟩
  · unfold buildVectors
    rw [buildVectorsGo_length, List.length_zip, hlen]
    simp
  · unfold buildVectors
    rw [buildVectorsGo_values]
    exact List.map_snd_zip _ _ (by omega)
  · unfold buildVectors
    rw [buildVectorsGo_texts]
    exact List.map_fst_zip _ _ (by omega)

/-- C2 witness: a remote backend that raises "down" on every upsert; the
one-chunk text "hello" lands in a fresh JSON snapshot and the call
succeeds. -/
theorem C2_witness :
    pyStrip "hello" ≠ ""
    ∧ RemoteEnv.available ⟨true, fun _ => Except.error "down", fun _ => Except.ok 0⟩ = true
    ∧ (∃ e, (store_vectors_pinecone ⟨true, fun _ => Except.error "down", fun _ => Except.ok 0⟩
        (fun _ => "u") "f" (split_text_into_chunks "hello")
        (create_embeddings (fun _ => [1]) (VSState.cache ⟨[], []⟩)
          (split_text_into_chunks "hello")).embeddings).2 = Except.error e)
    ∧ (store_vectors ⟨true, fun _ => Except.error "down", fun _ => Except.ok 0⟩
        (fun _ => [1]) (fun _ => "u") 0 ⟨[], []⟩ "f" "hello").result.status = "success" :=
  ⟨by decide, rfl, ⟨"down", rfl⟩,
    (C2_store_fallback_durable ⟨true, fun _ => Except.error "down", fun _ => Except.ok 0⟩
      (fun _ => [1]) (fun _ => "u") 0 ⟨[], []⟩ "f" "hello"
      (by decide) rfl ⟨"down", rfl⟩).1⟩

/-! ## Local search (`VectorService._search_json_vectors`)

The similarity computation `np.dot(vector_embeddings, query_vec)` is an
exact rational dot product per stored vector.  `np.argsort` (ascending) is
modelled as the stable ascending argsort — sort the indices by value, ties
by index; the slice `[-top_k:]` keeps Python's semantics, including the
`top_k = 0` corner where `[-0:]` is the whole array. -/

/-- `np.dot` of two equal-length vectors (zip truncates like numpy demands
equal shapes; the stored and query embeddings share the model dimension). -/
def dot (a b : Emb) : ℚ := ((a.zip b).map (fun p => p.1 * p.2)).sum

/-- The ordering by which `np.argsort` ranks indices: value ascending,
ties by index ascending (stable). -/
def argRel (sims : List ℚ) (i j : Nat) : Prop :=
  sims.getD i 0 < sims.getD j 0 ∨ (sims.getD i 0 = sims.getD j 0 ∧ i ≤ j)

instance argRelDecidable (sims : List ℚ) : DecidableRel (argRel sims) := fun i j =>
  inferInstanceAs (Decidable (sims.getD i 0 < sims.getD j 0
    ∨ (sims.getD i 0 = sims.getD j 0 ∧ i ≤ j)))

instance argRelTotal (sims : List ℚ) : IsTotal Nat (argRel sims) := ⟨by
  intro i j
  unfold argRel
  rcases lt_trichotomy (sims.getD i 0) (sims.getD j 0) with h | h | h
  · exact Or.inl (Or.inl h)
  · rcases Nat.le_total i j with hij | hij
    · exact Or.inl (Or.inr ⟨h, hij⟩)
    · exact Or.inr (Or.inr ⟨h.symm, hij⟩)
  · exact Or.inr (Or.inl h)⟩

instance argRelTrans (sims : List ℚ) : IsTrans Nat (argRel sims) := ⟨by
  intro a b c hab hbc
  unfold argRel at hab hbc ⊢
  rcases hab with h1 | ⟨h1, h1'⟩ <;> rcases hbc with h2 | ⟨h2, h2'⟩
  · exact Or.inl (h1.trans h2)
  · exact Or.inl (lt_of_lt_of_le h1 (le_of_eq h2))
  · exact Or.inl (lt_of_le_of_lt (le_of_eq h1) h2)
  · exact Or.inr ⟨h1.trans h2, h1'.trans h2'⟩⟩

/-- `np.argsort(similarities)`: index list sorted ascending by similarity,
ties by index. -/
def argsortAsc (sims : List ℚ) : List Nat :=
  (List.range sims.length).insertionSort (argRel sims)

/-- Python's slice `a[-k:]`: the last `k` elements — except that `a[-0:]`
is the whole list. -/
def lastSlice {α : Type} (l : List α) (k : Nat) : List α :=
  if k = 0 then l else l.drop (l.length - k)

/-- `np.argsort(similarities)[-top_k:][::-1]`. -/
def topKIndices (sims : List ℚ) (top_k : Nat) : List Nat :=
  (lastSlice (argsortAsc sims) top_k).reverse

/-- One search hit as returned by `_search_json_vectors`. -/
structure SearchResult where
  id : String
  score : ℚ
  text : String
  filename : String
  chunk_index : Nat
deriving DecidableEq, Repr

/-- Core of `_search_json_vectors`, over the loaded snapshot records and
the query embedding (the query-encoding and file-loading steps of the
source are effectful and supplied by the caller). -/
def searchJsonCore (vectors : List VectorRecord) (queryEmb : Emb) (top_k : Nat) :
    List SearchResult :=
  if vectors = [] then []
  else
    let sims := vectors.map (fun v => dot v.values queryEmb)
    (topKIndices sims top_k).map (fun idx =>
      ⟨(vectors.getD idx ⟨"", [], ⟨"", 0, "", 0⟩⟩).id,
       sims.getD idx 0,
       (vectors.getD idx ⟨"", [], ⟨"", 0, "", 0⟩⟩).metadata.text,
       (vectors.getD idx ⟨"", [], ⟨"", 0, "", 0⟩⟩).metadata.filename,
       (vectors.getD idx ⟨"", [], ⟨"", 0, "", 0⟩⟩).metadata.chunk_index⟩)

/-- `_search_json_vectors` from the service state: the latest snapshot file
(`_find_latest_backup_file`, the newest-first head of the file list) is
searched; no file yields no results. -/
def search_json_vectors (st : VSState) (queryEmb : Emb) (top_k : Nat) : List SearchResult :=
  match st.files with
  | [] => []
  | (_, data) :: _ => searchJsonCore data.vectors queryEmb top_k

/-- C3 counterexample: on a snapshot of two records with equal similarity
scores, the first result is the later chunk (`chunk_index = 1`), not the
earlier one the claim requires; and with `top_k = 0` the search returns
all 2 records instead of `min(0, 2) = 0`. -/
theorem C3_counterexample :
    ((searchJsonCore [⟨"f_u_0", [1], ⟨"f", 0, "t0", 2⟩⟩, ⟨"f_u_1", [1], ⟨"f", 1, "t1", 2⟩⟩]
        [1] 2).map (fun r => r.chunk_index) = [1, 0])
    ∧ (searchJsonCore [⟨"f_u_0", [1], ⟨"f", 0, "t0", 2⟩⟩, ⟨"f_u_1", [1], ⟨"f", 1, "t1", 2⟩⟩]
        [1] 0).length = 2 := by
  have hsims : ([(⟨"f_u_0", [1], ⟨"f", 0, "t0", 2⟩⟩ : VectorRecord),
      ⟨"f_u_1", [1], ⟨"f", 1, "t1", 2⟩⟩].map (fun v => dot v.values [1])) = [1, 1] := by
    simp [dot]
  constructor
  · unfold searchJsonCore
    rw [if_neg (by decide)]
    simp only [hsims]
    decide
  · unfold searchJsonCore
    rw [if_neg (by decide)]
    simp only [hsims]
    decide

/-- C3 (amended): for `top_k ≥ 1`, local search returns exactly
`min(top_k, n)` results, sorted by descending similarity score; ties
between equal scores are broken by descending insertion position — the
LATER chunk wins (the ascending argsort is reversed), not the earlier one;
and for `top_k = 0` Python's `[-0:]` slice returns all `n` records. -/
theorem C3_search_topk_ranking (vectors : List VectorRecord) (queryEmb : Emb)
    (k : Nat) (hk : 1 ≤ k) :
    (searchJsonCore vectors queryEmb k).length = min k vectors.length
    ∧ List.Pairwise (fun i j =>
        (vectors.map (fun v => dot v.values queryEmb)).getD j 0
            < (vectors.map (fun v => dot v.values queryEmb)).getD i 0
        ∨ ((vectors.map (fun v => dot v.values queryEmb)).getD i 0
              = (vectors.map (fun v => dot v.values queryEmb)).getD j 0 ∧ j < i))
        (topKIndices (vectors.map (fun v => dot v.values queryEmb)) k)
    ∧ ((searchJsonCore vectors queryEmb k).map (fun r => r.score)).Sorted (· ≥ ·) := by
  have hk0 : k ≠ 0 := by omega
  set sims := vectors.map (fun v => dot v.values queryEmb) with hsims
  have hsortlen : (argsortAsc sims).length = sims.length :=
    (List.perm_insertionSort (argRel sims) (List.range sims.length)).length_eq.trans
      (List.length_range _)
  have hnodup : (argsortAsc sims).Nodup :=
    ((List.perm_insertionSort (argRel sims) (List.range sims.length)).symm).nodup
      (List.nodup_range _)
  have hsorted : List.Sorted (argRel sims) (argsortAsc sims) :=
    List.sorted_insertionSort (argRel sims) (List.range sims.length)
  have hslice : (lastSlice (argsortAsc sims) k).Sorted (argRel sims) := by
    unfold lastSlice
    rw [if_neg hk0]
    exact List.Pairwise.sublist (List.drop_sublist _ _) hsorted
  have hslicend : (lastSlice (argsortAsc sims) k).Nodup := by
    unfold lastSlice
    rw [if_neg hk0]
    exact List.Nodup.sublist (List.drop_sublist _ _) hnodup
  have htop : List.Pairwise
      (fun i j => sims.getD j 0 < sims.getD i 0
        ∨ (sims.getD i 0 = sims.getD j 0 ∧ j < i)) (topKIndices sims k) := by
    unfold topKIndices
    have hrev : (lastSlice (argsortAsc sims) k).reverse.Pairwise
        (fun i j => argRel sims j i) :=
      List.pairwise_reverse.mpr hslice
    have hrevnd : (lastSlice (argsortAsc sims) k).reverse.Nodup :=
      List.nodup_reverse.mpr hslicend
    have hand := hrev.and hrevnd
    refine hand.imp ?_
    intro i j h
    obtain ⟨hr, hne⟩ := h
    unfold argRel at hr
    rcases hr with h1 | ⟨h1, h1'⟩
    · exact Or.inl h1
    · exact Or.inr ⟨h1.symm, by omega⟩
  have hlen : (topKIndices sims k).length = min k vectors.length := by
    unfold topKIndices lastSlice
    rw [if_neg hk0]
    rw [List.length_reverse, List.length_drop, hsortlen, hsims, List.length_map]
    omega
  by_cases hv : vectors = []
  · subst hv
    refine ⟨by simp [searchJsonCore], ?_, by simp [searchJsonCore]⟩
    have : (topKIndices sims k).length = 0 := by
      rw [hlen]; simp
    rw [List.length_eq_zero] at this
    rw [this]
    exact List.Pairwise.nil
  · refine ⟨?_, htop, ?_⟩
    · unfold searchJsonCore
      rw [if_neg hv]
      simp only [List.length_map, ← hsims]
      exact hlen
    · unfold searchJsonCore
      rw [if_neg hv]
      simp only [List.map_map, ← hsims]
      unfold List.Sorted
      rw [List.pairwise_map]
      refine htop.imp ?_
      intro i j h
      rcases h with h | ⟨h, _⟩
      · exact le_of_lt h
      · exact le_of_eq h.symm

/-- C3 witness: the amended ranking theorem instantiated on the two-record
snapshot with `top_k = 1`. -/
theorem C3_witness :
    (1 : Nat) ≤ 1
    ∧ (searchJsonCore [⟨"f_u_0", [1], ⟨"f", 0, "t0", 2⟩⟩, ⟨"f_u_1", [1], ⟨"f", 1, "t1", 2⟩⟩]
        [1] 1).length
      = min 1 ([⟨"f_u_0", [1], ⟨"f", 0, "t0", 2⟩⟩,
          ⟨"f_u_1", [1], ⟨"f", 1, "t1", 2⟩⟩] : List VectorRecord).length :=
  ⟨le_refl 1,
    (C3_search_topk_ranking [⟨"f_u_0", [1], ⟨"f", 0, "t0", 2⟩⟩, ⟨"f_u_1", [1], ⟨"f", 1, "t1", 2⟩⟩]
      [1] 1 (le_refl 1)).1⟩

/-! ## PDF extraction orchestrator (`PDFProcessor`)

External capabilities of `extract_text_and_tables` are an environment: the
`PyPDF2` native extraction outcome (which may raise), the PyMuPDF
image/table analysis flags, the three table-engine results (pandas
DataFrames abstracted to shape, first cell, emptiness and a rendered
string), and the per-engine OCR text.  Python's `isalnum` is modelled over
ASCII alphanumerics.  The float threshold `len(pdf_text) * 1.2` is the
exact rational comparison `10*len(ocr) > 12*len(pdf)` (binary-float
rounding could flip only hairline cases, which no claim touches). -/

/-- The result dict of `check_text_quality`. -/
structure TextQuality where
  quality : String
  reason : String
  needs_ocr : Bool
deriving DecidableEq, Repr

/-- The characters Python's quality check does not count as special:
`' \n\t.,!?-()[]\x7b\x7d":;\''`. -/
def basicPunct : List Char := [' ', '\n', '\t', '.', ',', '!', '?', '-', '(', ')', '[', ']',
  Char.ofNat 123, Char.ofNat 125, Char.ofNat 34, ':', ';', Char.ofNat 39]

/-- `not c.isalnum() and c not in basicPunct`. -/
def isSpecialChar (c : Char) : Bool := !c.isAlphanum && !(basicPunct.contains c)

/-- `PDFProcessor.check_text_quality`. -/
def check_text_quality (text : String) (num_pages : Nat) : TextQuality :=
  if text = "" ∨ (pyStrip text).length < 50 then ⟨"poor", "insufficient_text", true⟩
  else
    let words := pySplit text
    let wpp : ℚ := if 0 < num_pages then (words.length : ℚ) / (num_pages : ℚ) else 0
    if wpp < 20 then ⟨"poor", "too_few_words_per_page", true⟩
    else
      let special := (text.toList.filter isSpecialChar).length
      let ratio : ℚ := if 0 < text.length then (special : ℚ) / (text.length : ℚ) else 0
      if ratio > 3 / 10 then ⟨"poor", "too_many_special_chars", true⟩
      else ⟨"good", "text_extracted_successfully", false⟩

/-- The analysis dict of `pdf_has_images_or_tables`. -/
structure PDFAnalysis where
  has_images : Bool
  likely_has_tables : Bool
deriving DecidableEq, Repr

/-- The decision dict of `should_use_ocr`. -/
structure OCRDecision where
  use_ocr : Bool
  reason : String
deriving DecidableEq, Repr

/-- `PDFProcessor.should_use_ocr`. -/
def should_use_ocr (pdf_text : String) (num_pages : Nat) (analysis : PDFAnalysis)
    (force_ocr : Bool := false) : OCRDecision :=
  if force_ocr then ⟨true, "forced_by_user"⟩
  else if analysis.has_images then ⟨true, "has_images_always_run_ocr"⟩
  else if analysis.likely_has_tables then ⟨true, "likely_has_tables_need_ocr_for_structure"⟩
  else
    let tq := check_text_quality pdf_text num_pages
    if !tq.needs_ocr then ⟨false, "good_text_quality: " ++ tq.reason⟩
    else ⟨true, "poor_text_quality: " ++ tq.reason⟩

/-- A pandas DataFrame abstracted to what the orchestrator inspects:
shape, first cell, emptiness, and its `to_string` rendering. -/
structure Table where
  rows : Nat
  cols : Nat
  firstCell : String
  isEmpty : Bool
  rendered : String
deriving DecidableEq, Repr

/-- The duplicate test of the pdfplumber merge:
`(new.shape == ex.shape and new.iloc[0,0] == ex.iloc[0,0]) if (not
new.empty and not ex.empty) else False`. -/
def isDupOf (t e : Table) : Bool :=
  if !t.isEmpty && !e.isEmpty then
    (t.rows == e.rows && t.cols == e.cols) && t.firstCell == e.firstCell
  else false

/-- Environment of one `extract_text_and_tables` call. -/
structure ExtractEnv where
  native : Except String (String × Nat)
  analysis : PDFAnalysis
  camelot : List Table
  plumber : List Table
  tabula : List Table
  ocr_engine : String
  tesseract_text : String
  paddle_text : String
deriving Repr

/-- The table-extraction block: entered when structure was detected, OCR
was forced, or the native text is short; camelot first, pdfplumber merged
de-duplicated while fewer than two tables, tabula as last resort.  Returns
the tables and whether the block was entered. -/
def collectTables (env : ExtractEnv) (pdf_text : String) (force_ocr : Bool) :
    List Table × Bool :=
  if env.analysis.likely_has_tables || force_ocr || pdf_text.length < 1000 then
    let tables := env.camelot
    let tables := if tables.length < 2 then
        tables ++ (env.plumber.filter (fun t => !(tables.any (isDupOf t))))
      else tables
    let tables := if tables = [] then env.tabula else tables
    (tables, true)
  else ([], false)

/-- The OCR text obtained when the decision asks for OCR: dispatch on the
configured engine (an unknown engine contributes no text). -/
def resolvedOcrText (env : ExtractEnv) : String :=
  if env.ocr_engine = "tesseract" then env.tesseract_text
  else if env.ocr_engine = "paddle" then env.paddle_text
  else ""

/-- `"-" * 60`. -/
def dashes60 : String := String.mk (List.replicate 60 '-')

/-- `"=" * 60`. -/
def equals60 : String := String.mk (List.replicate 60 '=')

/-- The appended table dump (the `to_string` of each table is the
environment-provided rendering; the source's per-table fallback to
`head(20)` on a formatting exception does not occur for a total
rendering). -/
def tableDump (tables : List Table) : String :=
  String.join ((tables.enum).map (fun p =>
    "\n=== TABLE " ++ toString (p.1 + 1) ++ " ===\n"
    ++ "Dimensions: " ++ toString p.2.rows ++ " rows Ã— " ++ toString p.2.cols ++ " columns\n"
    ++ dashes60 ++ "\n" ++ p.2.rendered ++ "\n" ++ equals60 ++ "\n"))

/-- Final assembly: optional table dump after the chosen primary text,
then `final_text.strip()`. -/
def finalizeExtract (primary : String) (tables : List Table) : String × List Table :=
  let final := if tables ≠ [] then
      primary ++ "\n\n--- EXTRACTED TABLES ---\n\n" ++ tableDump tables
    else primary
  (pyStrip final, tables)

/-- Whether OCR ran and whether table extraction was attempted, for the
observability of one `extract_text_and_tables` call. -/
structure ExtractTrace where
  ocr_ran : Bool
  tables_attempted : Bool
deriving DecidableEq, Repr

/-- `PDFProcessor.extract_text_and_tables`.  A raising native extraction is
caught and replaced by `("", 0)`; the OCR decision and the table block then
run as usual; the fatal `HTTPException` ("PDF contains no extractable
text") is raised only when neither native nor OCR text exists. -/
def extract_text_and_tables (env : ExtractEnv) (force_ocr : Bool := true) :
    Except String (String × List Table) × ExtractTrace :=
  let pn := match env.native with
    | .ok p => p
    | .error _ => ("", 0)
  let pdf_text := pn.1
  let num_pages := pn.2
  let ocr_decision := should_use_ocr pdf_text num_pages env.analysis force_ocr
  let tb := collectTables env pdf_text force_ocr
  let tables := tb.1
  let ocr_text := if ocr_decision.use_ocr then resolvedOcrText env else ""
  let trace : ExtractTrace := ⟨ocr_decision.use_ocr, tb.2⟩
  if ocr_text ≠ "" ∧ 10 * ocr_text.length > 12 * pdf_text.length then
    (.ok (finalizeExtract ocr_text tables), trace)
  else if pdf_text ≠ "" ∧ ocr_text ≠ "" then
    (.ok (finalizeExtract (pdf_text ++ "\n\n--- OCR SUPPLEMENT ---\n\n" ++ ocr_text) tables),
      trace)
  else if pdf_text ≠ "" then (.ok (finalizeExtract pdf_text tables), trace)
  else if ocr_text ≠ "" then (.ok (finalizeExtract ocr_text tables), trace)
  else (.error "PDF contains no extractable text", trace)

theorem should_use_ocr_empty_text (a : PDFAnalysis) (f : Bool) :
    (should_use_ocr "" 0 a f).use_ocr = true := by
  unfold should_use_ocr check_text_quality
  by_cases hf : f <;> by_cases hi : a.has_images <;> by_cases ht : a.likely_has_tables <;>
    simp [hf, hi, ht]

/-- C1 counterexample: a structurally failing native extraction (corrupt
PDF) does NOT abort `extract_text_and_tables`: the exception is caught, OCR
runs and recovers text, table extraction is attempted, and the call
returns that text successfully instead of raising. -/
theorem C1_counterexample :
    extract_text_and_tables
        ⟨Except.error "PDF file is corrupt or invalid", ⟨false, false⟩,
          [], [], [], "tesseract", "recovered text", ""⟩ true
      = (Except.ok ("recovered text", []), ⟨true, true⟩) := rfl

/-- C1 (amended): when native extraction fails structurally, the
orchestrator catches the exception, substitutes empty text and zero pages,
and still proceeds: table extraction is attempted and the OCR decision is
always affirmative; the fatal "no extractable text" error is raised only
when the OCR engine also contributes no text. -/
theorem C1_native_failure_not_fatal (env : ExtractEnv) (force_ocr : Bool) (e : String)
    (h : env.native = Except.error e) :
    (extract_text_and_tables env force_ocr).2.ocr_ran = true
    ∧ (extract_text_and_tables env force_ocr).2.tables_attempted = true
    ∧ ((extract_text_and_tables env force_ocr).1
          = Except.error "PDF contains no extractable text"
        ↔ resolvedOcrText env = "") := by
  unfold extract_text_and_tables
  simp only [h]
  have hdec : (should_use_ocr "" 0 env.analysis force_ocr).use_ocr = true :=
    should_use_ocr_empty_text env.analysis force_ocr
  have htb : (collectTables env "" force_ocr).2 = true := by
    unfold collectTables
    simp
  simp only [hdec, htb, if_true]
  by_cases ho : resolvedOcrText env = ""
  · simp [ho]
  · have hlen : 0 < (resolvedOcrText env).length := by
      rcases hs : resolvedOcrText env with ⟨l⟩
      rw [hs] at ho
      cases l with
      | nil => exact absurd rfl ho
      | cons c cs => simp [String.length]
    have h0 : ("" : String).length = 0 := rfl
    have hgt : 10 * (resolvedOcrText env).length > 12 * ("" : String).length := by
      rw [h0]
      omega
    rw [if_pos ⟨ho, hgt⟩]
    exact ⟨rfl, rfl, by simp [ho]⟩

/-- C1 witness: the amended theorem instantiated at the corrupt-PDF
environment whose OCR recovers text. -/
theorem C1_witness :
    (ExtractEnv.native ⟨Except.error "PDF file is corrupt or invalid", ⟨false, false⟩,
        [], [], [], "tesseract", "recovered text", ""⟩
      = Except.error "PDF file is corrupt or invalid")
    ∧ (extract_text_and_tables
        ⟨Except.error "PDF file is corrupt or invalid", ⟨false, false⟩,
          [], [], [], "tesseract", "recovered text", ""⟩ true).2.ocr_ran = true :=
  ⟨rfl,
    (C1_native_failure_not_fatal
      ⟨Except.error "PDF file is corrupt or invalid", ⟨false, false⟩,
        [], [], [], "tesseract", "recovered text", ""⟩ true
      "PDF file is corrupt or invalid" rfl).1⟩

/-- C7: `should_use_ocr` is a pure function of its four inputs (equal
inputs give equal output); `force_ocr = true` always yields
`(true, "forced_by_user")`; and otherwise the decision is taken in
priority order — images present, then table-like structure, then the
text-quality assessment (whose `needs_ocr` verdict becomes `use_ocr`). -/
theorem C7_ocr_decision_priority (pdf_text : String) (num_pages : Nat)
    (analysis : PDFAnalysis) (force_ocr : Bool) :
    should_use_ocr pdf_text num_pages analysis true = ⟨true, "forced_by_user"⟩
    ∧ (force_ocr = false → analysis.has_images = true →
        should_use_ocr pdf_text num_pages analysis force_ocr
          = ⟨true, "has_images_always_run_ocr"⟩)
    ∧ (force_ocr = false → analysis.has_images = false → analysis.likely_has_tables = true →
        should_use_ocr pdf_text num_pages analysis force_ocr
          = ⟨true, "likely_has_tables_need_ocr_for_structure"⟩)
    ∧ (force_ocr = false → analysis.has_images = false → analysis.likely_has_tables = false →
        (should_use_ocr pdf_text num_pages analysis force_ocr).use_ocr
          = (check_text_quality pdf_text num_pages).needs_ocr)
    ∧ (∀ t2 n2 a2 f2, pdf_text = t2 → num_pages = n2 → analysis = a2 → force_ocr = f2 →
        should_use_ocr pdf_text num_pages analysis force_ocr = should_use_ocr t2 n2 a2 f2) := by
  refine ⟨?_, ?_, ?_, ?_, ?_⟩
  · unfold should_use_ocr
    simp
  · intro hf hi
    unfold should_use_ocr
    simp [hf, hi]
  · intro hf hi ht
    unfold should_use_ocr
    simp [hf, hi, ht]
  · intro hf hi ht
    unfold should_use_ocr
    simp only [hf, hi, ht, if_false, Bool.false_eq_true]
    by_cases hq : (check_text_quality pdf_text num_pages).needs_ocr <;> simp [hq]
  · intro t2 n2 a2 f2 h1 h2 h3 h4
    rw [h1, h2, h3, h4]

/-- C7 witness: the priority clauses instantiated — an images-present
analysis without `force_ocr` decides OCR for the image reason. -/
theorem C7_witness :
    false = false ∧ PDFAnalysis.has_images ⟨true, false⟩ = true
    ∧ should_use_ocr "some text" 1 ⟨true, false⟩ false
        = ⟨true, "has_images_always_run_ocr"⟩ :=
  ⟨rfl, rfl,
    (C7_ocr_decision_priority "some text" 1 ⟨true, false⟩ false).2.1 rfl rfl⟩

/-! ## Door schedule (`door_schedule_parser.calculate_door_area`)

The regex `(\d+(?:\.\d+)?)\s*["\']?\s*[xX×]\s*(\d+(?:\.\d+)?)\s*["\']?` is
modelled as a leftmost-match scanner; for this pattern greedy matching
without backtracking is exact (taking fewer digits or skipping the
fraction always leaves a character that can match none of the following
pattern elements).  `float(...)` of a matched group is the exact rational
of its decimal digits; `2.54` is the exact `254/100`; `round(x, 3)` is
round-to-nearest on exact rationals (Python rounds the binary double
half-to-even — the two agree away from representation-boundary ties, and
no claim input is near one). -/

/-- The numeric value of a digit group. -/
def digitsToNat (ds : List Char) : Nat := ds.foldl (fun n c => 10 * n + (c.toNat - 48)) 0

/-- `float(group)` for a matched decimal group (integer digits, fraction
digits). -/
def pyFloat (g : List Char × List Char) : ℚ :=
  if g.2 = [] then (digitsToNat g.1 : ℚ)
  else (digitsToNat g.1 : ℚ) + (digitsToNat g.2 : ℚ) / (10 : ℚ) ^ g.2.length

/-- Match `\d+(?:\.\d+)?` at the head: the digit groups and the remaining
input.  The optional fraction is taken only when a digit follows the dot. -/
def parseDec (cs : List Char) : Option ((List Char × List Char) × List Char) :=
  let ds := cs.takeWhile Char.isDigit
  if ds = [] then none
  else
    let rest := cs.dropWhile Char.isDigit
    match rest with
    | '.' :: r2 =>
      let fs := r2.takeWhile Char.isDigit
      if fs = [] then some ((ds, []), rest)
      else some ((ds, fs), r2.dropWhile Char.isDigit)
    | _ => some ((ds, []), rest)

/-- Match the whole size pattern at the head of the input: first number,
`\s*["\']?\s*`, the (already normalised) `x`, `\s*`, second number. -/
def matchSizeAt (cs : List Char) : Option ((List Char × List Char) × (List Char × List Char)) :=
  match parseDec cs with
  | none => none
  | some (g1, r1) =>
    let r2 := r1.dropWhile pyIsSpace
    let r3 := match r2 with
      | c :: t => if c = Char.ofNat 34 ∨ c = Char.ofNat 39 then t else r2
      | [] => r2
    let r4 := r3.dropWhile pyIsSpace
    match r4 with
    | 'x' :: r5 =>
      match parseDec (r5.dropWhile pyIsSpace) with
      | none => none
      | some (g2, _) => some (g1, g2)
    | _ => none

/-- `re.search`: the leftmost position at which the pattern matches. -/
def searchSize : List Char → Option ((List Char × List Char) × (List Char × List Char))
  | [] => none
  | cs@(_ :: t) =>
    match matchSizeAt cs with
    | some p => some p
    | none => searchSize t

/-- `size_str.replace('×','x').replace('X','x').replace('"','').strip()`. -/
def normalizeSize (s : String) : String :=
  pyStrip (String.mk (s.toList.filterMap (fun c =>
    if c = Char.ofNat 34 then none
    else if c = '×' ∨ c = 'X' then some 'x' else some c)))

/-- `round(q, 3)`. -/
def round3 (q : ℚ) : ℚ := (round (q * 1000) : ℤ) / 1000

/-- `door_schedule_parser.calculate_door_area`: parse a `w x h` pair,
convert inch-sized values (both dimensions below 50) to centimetres by
`* 2.54`, return `round((w_cm/100)*(h_cm/100), 3)`; unparseable input
yields `0.0` (and exceptions are caught, so the function never raises). -/
def calculate_door_area (size_str : String) : ℚ :=
  match searchSize (normalizeSize size_str).toList with
  | none => 0
  | some (g1, g2) =>
    let w := pyFloat g1
    let h := pyFloat g2
    if w < 50 ∧ h < 50 then round3 ((w * 254 / 100 / 100) * (h * 254 / 100 / 100))
    else round3 ((w / 100) * (h / 100))

theorem pyFloat_30 : pyFloat (['3', '0'], []) = 30 := by
  have hd : digitsToNat ['3', '0'] = 30 := rfl
  unfold pyFloat
  rw [if_pos rfl, hd]
  norm_num

theorem pyFloat_40 : pyFloat (['4', '0'], []) = 40 := by
  have hd : digitsToNat ['4', '0'] = 40 := rfl
  unfold pyFloat
  rw [if_pos rfl, hd]
  norm_num

/-- C6 counterexample: "30x40" is parseable as the pair (30, 40), but
`calculate_door_area "30x40"` is `0.774` (the code treats both-below-50
sizes as inches and multiplies by 2.54), not the claimed
`round((30/100)*(40/100), 3) = 0.12`. -/
theorem C6_counterexample :
    searchSize (normalizeSize "30x40").toList = some ((['3', '0'], []), (['4', '0'], []))
    ∧ calculate_door_area "30x40" = 387 / 500
    ∧ round3 ((30 / 100) * (40 / 100)) = 3 / 25
    ∧ calculate_door_area "30x40" ≠ round3 ((30 / 100) * (40 / 100)) := by
  have hparse : searchSize (normalizeSize "30x40").toList
      = some ((['3', '0'], []), (['4', '0'], [])) := rfl
  have hval : calculate_door_area "30x40" = 387 / 500 := by
    unfold calculate_door_area
    rw [hparse]
    simp only [pyFloat_30, pyFloat_40]
    rw [if_pos (by norm_num)]
    unfold round3
    have hr : round (((30 : ℚ) * 254 / 100 / 100) * ((40 : ℚ) * 254 / 100 / 100) * 1000)
        = 774 := by
      rw [round_eq]
      apply Int.floor_eq_iff.mpr
      constructor <;> norm_num
    rw [hr]
    norm_num
  have hclaim : round3 ((30 / 100 : ℚ) * (40 / 100)) = 3 / 25 := by
    unfold round3
    have hr : round (((30 : ℚ) / 100) * (40 / 100) * 1000) = 120 := by
      rw [round_eq]
      apply Int.floor_eq_iff.mpr
      constructor <;> norm_num
    rw [hr]
    norm_num
  refine ⟨hparse, hval, hclaim, ?_⟩
  rw [hval, hclaim]
  norm_num

/-- C6 (amended): for a parseable size the area is
`round((w/100)*(h/100), 3)` only when not both dimensions are below 50 —
in particular `"90x210"` yields 1.89; when both are below 50 the values
are first converted from inches (`* 2.54`) and the same formula is applied
to the converted values; unparseable size strings yield `0.0` (the
function is total, so it never raises). -/
theorem C6_door_area (s : String) (g1 g2 : List Char × List Char) :
    (searchSize (normalizeSize s).toList = some (g1, g2) →
      calculate_door_area s
        = if pyFloat g1 < 50 ∧ pyFloat g2 < 50
          then round3 ((pyFloat g1 * 254 / 100 / 100) * (pyFloat g2 * 254 / 100 / 100))
          else round3 ((pyFloat g1 / 100) * (pyFloat g2 / 100)))
    ∧ (searchSize (normalizeSize s).toList = none → calculate_door_area s = 0)
    ∧ calculate_door_area "90x210" = 189 / 100 := by
  refine ⟨?_, ?_, ?_⟩
  · intro h
    unfold calculate_door_area
    rw [h]
  · intro h
    unfold calculate_door_area
    rw [h]
  · have hparse : searchSize (normalizeSize "90x210").toList
        = some ((['9', '0'], []), (['2', '1', '0'], [])) := rfl
    have h90 : pyFloat (['9', '0'], []) = 90 := by
      have hd : digitsToNat ['9', '0'] = 90 := rfl
      unfold pyFloat
      rw [if_pos rfl, hd]
      norm_num
    have h210 : pyFloat (['2', '1', '0'], []) = 210 := by
      have hd : digitsToNat ['2', '1', '0'] = 210 := rfl
      unfold pyFloat
      rw [if_pos rfl, hd]
      norm_num
    unfold calculate_door_area
    rw [hparse]
    simp only [h90, h210]
    rw [if_neg (by norm_num)]
    unfold round3
    have hr : round (((90 : ℚ) / 100) * (210 / 100) * 1000) = 1890 := by
      rw [round_eq]
      apply Int.floor_eq_iff.mpr
      constructor <;> norm_num
    rw [hr]
    norm_num

/-- C6 witness: the amended theorem applied at the parseable input
"90x210". -/
theorem C6_witness :
    searchSize (normalizeSize "90x210").toList = some ((['9', '0'], []), (['2', '1', '0'], []))
    ∧ calculate_door_area "90x210"
        = if pyFloat (['9', '0'], []) < 50 ∧ pyFloat (['2', '1', '0'], []) < 50
          then round3 ((pyFloat (['9', '0'], []) * 254 / 100 / 100)
              * (pyFloat (['2', '1', '0'], []) * 254 / 100 / 100))
          else round3 ((pyFloat (['9', '0'], []) / 100) * (pyFloat (['2', '1', '0'], []) / 100)) :=
  ⟨rfl, (C6_door_area "90x210" (['9', '0'], []) (['2', '1', '0'], [])).1 rfl⟩

end RAG
